import Mathlib

set_option maxRecDepth 40000

/-!
Shallow embedding of `src/fraud_detection.py`: the interactive column
resolution (`ask_column`, `auto_find_column`), the land-mismatch detector
(`detect_land_mismatch_with_mapping`) and the dealer outlier detector
(`detect_dealer_by_avg_tx`), together with theorems settling the claims.

Modelling conventions:
- pandas floating point numbers are modelled by `ℚ`; `NaN` (unknown)
  values by `Option` (`none` = unknown).
- a CSV cell is a `Cell`: string, integer, general numeric, or missing.
- `pd.to_numeric(errors="coerce")` is `Cell.toNum` (the numeric-string
  grammar is restricted to optionally signed integer literals).
- `.astype(str)` is `Cell.toStr` (pandas renders missing values as "nan").
- the detectors receive rows whose columns are already renamed to the
  canonical names chosen by the mapping (the `rename` calls in the source
  are pure per-column relabelling).
- `sort_values(..., ascending=False)` at source line 111 uses the default
  `kind='quicksort'`, which pandas documents as not stable: the source
  guarantees only a permutation of the rows sorted descending on the key,
  with implementation-defined tie order. The executable model picks
  `List.mergeSort` as one admissible output; the documented contract is
  captured by the relation `sortValuesDesc`, and every property sensitive
  to the order of ties is stated over all admissible outputs rather than
  about the particular representative. The value sort inside `quantile`
  is order-of-ties-insensitive (it sorts plain numbers), so `mergeSort`
  is exact there.
- the row order of the dealer summary (whose `value_counts`/`concat`
  ordering the source does not pin down semantically) is fixed to
  first-occurrence order of the dealers; no theorem depends on that
  order.
-/

namespace FraudDetection

/-- A cell value as loaded from a CSV file: a string, an integer, a general
numeric value, or a missing value (pandas `NaN`). -/
inductive Cell where
  | str : String → Cell
  | int : Int → Cell
  | rat : ℚ → Cell
  | null : Cell
deriving DecidableEq

/-- Accumulate decimal digits; fails on any non-digit character. -/
def parseDigitsAux : List Char → Nat → Option Nat
  | [], acc => some acc
  | c :: cs, acc =>
    if c.isDigit then parseDigitsAux cs (acc * 10 + (c.toNat - 48)) else none

/-- Parse an optionally signed integer literal (after stripping
surrounding whitespace), the fragment of `pd.to_numeric`'s numeric-string
grammar used by this embedding. -/
def parseIntString (s : String) : Option Int :=
  match s.trim.toList with
  | [] => none
  | '-' :: cs =>
    if cs = [] then none else (parseDigitsAux cs 0).map (fun n => -(n : Int))
  | cs => (parseDigitsAux cs 0).map (fun n => (n : Int))

/-- `pd.to_numeric(x, errors="coerce")` on a single cell: numeric cells
pass through, numeric strings are parsed, everything else (including a
missing cell) becomes unknown (`none`, modelling `NaN`). -/
def Cell.toNum : Cell → Option ℚ
  | .str s => (parseIntString s).map (fun n => (n : ℚ))
  | .int n => some ((n : ℚ))
  | .rat q => some q
  | .null => none

/-- `.astype(str)` on a single cell; pandas stringifies `NaN` to "nan". -/
def Cell.toStr : Cell → String
  | .str s => s
  | .int n => toString n
  | .rat q => toString q
  | .null => "nan"

/-- A farmers-file row after the mapping's columns have been renamed to the
canonical `FarmerID` / `Name` / `LandSize_Acres` (source lines 212-217). -/
structure FarmerRow where
  farmerId : Cell
  name : Option Cell
  land : Cell
deriving DecidableEq

/-- A transactions-file row after the mapping's columns have been renamed
to the canonical names (source lines 219-226). -/
structure TransRow where
  transactionId : Cell
  farmerId : Cell
  dealerId : Cell
  quantity : Cell
  village : Option Cell
deriving DecidableEq

/-- One row of `pd.merge(trans, farmers, on="FarmerID", how="left")`: the
transaction together with the matched farmer row, if any. -/
structure MergedRow where
  tr : TransRow
  farmer : Option FarmerRow
deriving DecidableEq

/-- The farmer rows whose stringified `FarmerID` equals the given key
(both sides are stringified by `astype(str)` before the merge,
source lines 229-230). -/
def joinMatches (farmers : List FarmerRow) (key : String) : List FarmerRow :=
  farmers.filter (fun f => decide (f.farmerId.toStr = key))

/-- Left-join expansion of one transaction: one merged row per matching
farmer, or a single row with no farmer data when there is no match. -/
def mergedOfTrans (farmers : List FarmerRow) (t : TransRow) : List MergedRow :=
  match joinMatches farmers t.farmerId.toStr with
  | [] => [⟨t, none⟩]
  | fs => fs.map (fun f => ⟨t, some f⟩)

/-- `pd.merge(trans, farmers, on="FarmerID", how="left")` (source
line 233): every transaction retained, in original transaction order. -/
def merged (farmers : List FarmerRow) (trans : List TransRow) : List MergedRow :=
  trans.flatMap (fun t => mergedOfTrans farmers t)

/-- `merged["Quantity_KG"]` after numeric coercion (source line 237). -/
def qtyOf (r : MergedRow) : Option ℚ := r.tr.quantity.toNum

/-- `merged["LandSize_Acres"]` after numeric coercion (source line 236):
unknown when the transaction matched no farmer or the land cell does not
coerce to a number. -/
def landOf (r : MergedRow) : Option ℚ := r.farmer.bind (fun f => f.land.toNum)

/-- `merged["Max_Allowed_KG"] = merged["LandSize_Acres"] *
float(limit_per_acre)` (source line 247); unknown land gives an unknown
ceiling. -/
def maxAllowedOf (limit : ℚ) (r : MergedRow) : Option ℚ :=
  (landOf r).map (fun land => land * limit)

/-- The row condition `merged["Quantity_KG"] > merged["Max_Allowed_KG"]`
(source line 249): a comparison with an unknown (`NaN`) operand is false. -/
def isSuspicious (limit : ℚ) (r : MergedRow) : Bool :=
  match qtyOf r, maxAllowedOf limit r with
  | some q, some m => decide (m < q)
  | _, _ => false

/-- `detect_land_mismatch_with_mapping` (source lines 206-260), with the
final report-column projection left out: the flagged merged rows, in
merge order. -/
def detect_land_mismatch_with_mapping (farmers : List FarmerRow)
    (trans : List TransRow) (limit : ℚ) : List MergedRow :=
  (merged farmers trans).filter (isSuspicious limit)

/-- The source's default `limit_per_acre=100` (signature line 206 and the
call at line 281). -/
def limit_per_acre_default : ℚ := 100

/-- `trans["Quantity_KG"] = pd.to_numeric(...).fillna(0.0)` (source
line 83): an unknown quantity becomes 0 in the dealer pipeline. -/
def coercedQty (t : TransRow) : ℚ := (Cell.toNum t.quantity).getD 0

/-- Deduplicate, keeping the first occurrence of each value. -/
def firstOccur : List Cell → List Cell
  | [] => []
  | c :: rest => c :: firstOccur (rest.filter (fun d => decide (d ≠ c)))
termination_by l => l.length
decreasing_by
  exact Nat.lt_succ_of_le (List.length_filter_le _ _)

/-- The distinct dealers appearing in the transactions, in first-occurrence
order; missing (`NaN`) dealer ids are dropped, as `value_counts` and
`groupby` both drop `NaN` keys. -/
def dealersIn (trans : List TransRow) : List Cell :=
  firstOccur ((trans.map (fun t => t.dealerId)).filter (fun d => decide (d ≠ Cell.null)))

/-- One row of the per-dealer summary table (source lines 86-92). -/
structure DealerSummary where
  dealerId : Cell
  txCount : Nat
  totalQty : ℚ
  avg : ℚ
deriving DecidableEq

/-- The summary row of one dealer: `value_counts` count, `groupby(...).sum`
total of the coerced quantities, and `Avg_KG_per_Tx = Total_KG /
Transaction_Count` (source lines 86-92). -/
def summaryFor (trans : List TransRow) (d : Cell) : DealerSummary :=
  let rows := trans.filter (fun t => decide (t.dealerId = d))
  ⟨d, rows.length, ((rows.map coercedQty).sum),
    ((rows.map coercedQty).sum) / ((rows.length : ℚ))⟩

/-- The full per-dealer summary (source lines 86-92); see the header note
on the row order. -/
def dealerSummary (trans : List TransRow) : List DealerSummary :=
  (dealersIn trans).map (summaryFor trans)

/-- The values sorted ascending, as numpy sorts the series values inside
`Series.quantile`. -/
def sortedAsc (xs : List ℚ) : List ℚ := xs.mergeSort (fun a b => decide (a ≤ b))

/-- The lower order-statistic index `⌊(n-1)*q⌋` used by the quantile's
linear interpolation. -/
def qIndex (n : ℕ) (q : ℚ) : ℕ := (⌊((n - 1 : ℕ) : ℚ) * q⌋).toNat

/-- The interpolation weight `(n-1)*q - ⌊(n-1)*q⌋`. -/
def qFrac (n : ℕ) (q : ℚ) : ℚ := ((n - 1 : ℕ) : ℚ) * q - ((qIndex n q : ℕ) : ℚ)

/-- pandas `Series.quantile(q)` with the default linear interpolation
between order statistics: with the values sorted ascending and
`h = (n-1)*q`, the result is `s[⌊h⌋] + (h-⌊h⌋) * (s[⌊h⌋+1] - s[⌊h⌋])`
(the upper index is clamped to the last element). -/
def quantile (xs : List ℚ) (q : ℚ) : ℚ :=
  if xs = [] then 0
  else
    (sortedAsc xs).getD (qIndex xs.length q) 0 +
      qFrac xs.length q *
        ((sortedAsc xs).getD (qIndex xs.length q + 1)
            ((sortedAsc xs).getD (qIndex xs.length q) 0) -
          (sortedAsc xs).getD (qIndex xs.length q) 0)

/-- The percentile part of `avg_threshold` (source line 103):
`summary["Avg_KG_per_Tx"].quantile(avg_tx_percentile)` when the summary is
non-empty, else `0.0`. -/
def quantileBase (trans : List TransRow) (percentile : ℚ) : ℚ :=
  if dealerSummary trans = [] then 0
  else quantile ((dealerSummary trans).map (fun s => s.avg)) percentile

/-- `avg_threshold` (source lines 103-105): the percentile of the
per-dealer averages (0 when the summary is empty), raised to `min_avg_kg`
when that floor is supplied. -/
def avgThreshold (trans : List TransRow) (percentile : ℚ) (minAvg : Option ℚ) : ℚ :=
  match minAvg with
  | none => quantileBase trans percentile
  | some m => max (quantileBase trans percentile) m

/-- The descending comparison used by
`sort_values(by="Avg_KG_per_Tx", ascending=False)` (source line 111). -/
def avgDesc (a b : DealerSummary) : Bool := decide (b.avg ≤ a.avg)

/-- The contract pandas documents for
`sort_values(by="Avg_KG_per_Tx", ascending=False)` with the default
`kind='quicksort'` (source line 111): the output is a permutation of the
input rows, sorted descending on the key. Quicksort is not stable, so the
relative order of rows with equal keys is implementation-defined;
`sortValuesDesc l out` holds exactly for the admissible outputs `out` on
input `l`. -/
def sortValuesDesc (l out : List DealerSummary) : Prop :=
  out.Perm l ∧ List.Pairwise (fun a b => b.avg ≤ a.avg) out

/-- `detect_dealer_by_avg_tx` (source lines 69-113): flag the dealers with
`Avg_KG_per_Tx >= avg_threshold` (source line 110), sort them descending
by average (source line 111), and return (flagged, summary). The source's
`sort_values` guarantees only a descending-sorted permutation (see
`sortValuesDesc`), not a tie order; the executable model picks
`List.mergeSort`, one admissible output, and statements sensitive to the
order of ties are made about every admissible output instead. -/
def detect_dealer_by_avg_tx (trans : List TransRow) (percentile : ℚ)
    (minAvg : Option ℚ) : List DealerSummary × List DealerSummary :=
  (((dealerSummary trans).filter
      (fun s => decide (avgThreshold trans percentile minAvg ≤ s.avg))).mergeSort avgDesc,
    dealerSummary trans)

/-- The source's default `avg_tx_percentile=0.95` (signature line 69 and
the call at line 294). -/
def avg_tx_percentile_default : ℚ := 95 / 100

/-- The default detection (source lines 20-25): the first candidate that is
one of the available columns, if any. -/
def findDefault (cands : Option (List String)) (cols : List String) : Option String :=
  match cands with
  | none => none
  | some cs => cs.find? (fun c => decide (c ∈ cols))

/-- One operator answer as the source processes it (lines 38-40 and 47-49):
strip it, and an empty answer selects the default when one exists. -/
def effectiveSel (dflt : Option String) (raw : String) : String :=
  let s := raw.trim
  if s = "" then dflt.getD s else s

/-- `ask_column` (source lines 13-52), with the operator's answers supplied
as a scripted list (`input()` yields the next entry, or "" when the script
is exhausted): accept the first valid selection, re-ask exactly once on an
invalid one, and raise `KeyError` (modelled as `Except.error`) when the
second selection is also invalid. -/
def ask_column (cols : List String) (cands : Option (List String))
    (inputs : List String) : Except String String :=
  if effectiveSel (findDefault cands cols) (inputs.getD 0 "") ∈ cols then
    Except.ok (effectiveSel (findDefault cands cols) (inputs.getD 0 ""))
  else if effectiveSel (findDefault cands cols) (inputs.getD 1 "") ∈ cols then
    Except.ok (effectiveSel (findDefault cands cols) (inputs.getD 1 ""))
  else Except.error (effectiveSel (findDefault cands cols) (inputs.getD 1 ""))

/-- An optional role in `get_column_mapping` (source lines 157-160 and
180-183): `ask_column` wrapped in `try/except KeyError`, recording the
role as unset (`none`) on failure. -/
def ask_column_optional (cols : List String) (cands : Option (List String))
    (inputs : List String) : Option String :=
  match ask_column cols cands inputs with
  | Except.ok c => some c
  | Except.error _ => none

/-- Whether `needle` is a leading run of `hay` (character-wise equality). -/
def charsLeadEq : List Char → List Char → Bool
  | [], _ => true
  | _ :: _, [] => false
  | a :: as, b :: bs => decide (a = b) && charsLeadEq as bs

/-- Python's substring test `needle in hay` on character lists. -/
def containsSub (needle : List Char) : List Char → Bool
  | [] => charsLeadEq needle []
  | c :: rest => charsLeadEq needle (c :: rest) || containsSub needle rest

/-- The source's match test `kw.lower() in low` (line 62): `kw` is a
case-insensitive substring of the column name `c`. -/
def kwMatches (kw c : String) : Bool :=
  containsSub kw.toLower.toList c.toLower.toList

/-- `auto_find_column` (source lines 54-64): for each keyword in priority
order, return the first column (in original column order) containing it
case-insensitively; `none` when no keyword matches any column. -/
def auto_find_column (columns keywords : List String) : Option String :=
  match keywords with
  | [] => none
  | kw :: rest =>
    match columns.find? (fun c => kwMatches kw c) with
    | some c => some c
    | none => auto_find_column columns rest

/-! ### Helper lemmas about the left join -/

theorem mem_mergedOfTrans_tr {farmers : List FarmerRow} {t : TransRow} {r : MergedRow}
    (h : r ∈ mergedOfTrans farmers t) : r.tr = t := by
  unfold mergedOfTrans at h
  cases hj : joinMatches farmers t.farmerId.toStr with
  | nil =>
    rw [hj] at h
    simp only [List.mem_singleton] at h
    subst h
    rfl
  | cons f fs =>
    rw [hj] at h
    simp only [List.mem_map] at h
    obtain ⟨g, hg, rfl⟩ := h
    rfl

theorem mergedOfTrans_farmer {farmers : List FarmerRow} {t : TransRow} {r : MergedRow}
    {f : FarmerRow} (h : r ∈ mergedOfTrans farmers t) (hf : r.farmer = some f) :
    f ∈ farmers ∧ f.farmerId.toStr = t.farmerId.toStr := by
  unfold mergedOfTrans at h
  cases hj : joinMatches farmers t.farmerId.toStr with
  | nil =>
    rw [hj] at h
    simp only [List.mem_singleton] at h
    subst h
    simp at hf
  | cons g gs =>
    rw [hj] at h
    simp only [List.mem_map] at h
    obtain ⟨g', hg', rfl⟩ := h
    simp only [Option.some.injEq] at hf
    have hm2 : g' ∈ joinMatches farmers t.farmerId.toStr := by
      rw [hj]
      exact hg'
    have hsplit := List.mem_filter.mp hm2
    rw [← hf]
    exact ⟨hsplit.1, of_decide_eq_true hsplit.2⟩

theorem exists_mem_mergedOfTrans (farmers : List FarmerRow) (t : TransRow) :
    ∃ r ∈ mergedOfTrans farmers t, r.tr = t := by
  unfold mergedOfTrans
  cases hj : joinMatches farmers t.farmerId.toStr with
  | nil => exact ⟨⟨t, none⟩, List.mem_singleton.mpr rfl, rfl⟩
  | cons f fs => exact ⟨⟨t, some f⟩, List.mem_map_of_mem _ (List.mem_cons_self f fs), rfl⟩

theorem mk_mem_mergedOfTrans {farmers : List FarmerRow} {t : TransRow} {f : FarmerRow}
    (hf : f ∈ farmers) (hkey : f.farmerId.toStr = t.farmerId.toStr) :
    MergedRow.mk t (some f) ∈ mergedOfTrans farmers t := by
  have hm : f ∈ joinMatches farmers t.farmerId.toStr :=
    List.mem_filter.mpr ⟨hf, decide_eq_true hkey⟩
  unfold mergedOfTrans
  cases hj : joinMatches farmers t.farmerId.toStr with
  | nil =>
    rw [hj] at hm
    simp at hm
  | cons g gs =>
    rw [hj] at hm
    exact List.mem_map_of_mem _ hm

theorem mem_merged_iff {farmers : List FarmerRow} {trans : List TransRow} {r : MergedRow} :
    r ∈ merged farmers trans ↔ ∃ t ∈ trans, r ∈ mergedOfTrans farmers t := by
  unfold merged
  exact List.mem_flatMap

theorem isSuspicious_iff {limit : ℚ} {r : MergedRow} :
    isSuspicious limit r = true ↔
      ∃ land q, landOf r = some land ∧ qtyOf r = some q ∧ land * limit < q := by
  unfold isSuspicious maxAllowedOf
  cases hq : qtyOf r with
  | none => cases hl : landOf r <;> simp [hq, hl]
  | some q =>
    cases hl : landOf r with
    | none => simp [hq, hl]
    | some land => simp [hq, hl]

theorem filter_sublist_filter_of_imp {α : Type} {p q : α → Bool} :
    ∀ (l : List α), (∀ a ∈ l, p a = true → q a = true) →
      (l.filter p).Sublist (l.filter q)
  | [], _ => by simp
  | a :: l, h => by
    have ih := filter_sublist_filter_of_imp l (fun b hb => h b (List.mem_cons_of_mem _ hb))
    simp only [List.filter_cons]
    cases hp : p a with
    | true =>
      rw [h a (List.mem_cons_self a l) hp]
      exact ih.cons₂ a
    | false =>
      cases hq : q a with
      | true => exact ih.cons a
      | false => exact ih

/-! ### Claim theorems: the land-mismatch detector -/

/-- C1: the detector computes `Max_Allowed_KG = LandSize * limit_per_acre`
(with `limit_per_acre` defaulting to 100) per joined row, and a row is in
the flagged output exactly when its known quantity strictly exceeds its
known ceiling; a row whose quantity equals its ceiling is never flagged. -/
theorem land_mismatch_strict_flagging :
    limit_per_acre_default = 100 ∧
    (∀ (farmers : List FarmerRow) (trans : List TransRow) (limit : ℚ) (r : MergedRow),
      r ∈ detect_land_mismatch_with_mapping farmers trans limit ↔
        r ∈ merged farmers trans ∧
          ∃ land q, landOf r = some land ∧ qtyOf r = some q ∧ land * limit < q) ∧
    (∀ (farmers : List FarmerRow) (trans : List TransRow) (limit : ℚ) (r : MergedRow) (q : ℚ),
      qtyOf r = some q → maxAllowedOf limit r = some q →
      r ∉ detect_land_mismatch_with_mapping farmers trans limit) := by
  refine ⟨rfl, ?_, ?_⟩
  · intro farmers trans limit r
    unfold detect_land_mismatch_with_mapping
    rw [List.mem_filter, isSuspicious_iff]
  · intro farmers trans limit r q hq hm hmem
    unfold detect_land_mismatch_with_mapping at hmem
    rw [List.mem_filter, isSuspicious_iff] at hmem
    obtain ⟨-, land, q', hland, hq', hlt⟩ := hmem
    have hml : land * limit = q := by
      unfold maxAllowedOf at hm
      rw [hland] at hm
      simpa using hm
    have hqq : q' = q := by
      rw [hq] at hq'
      simpa using hq'.symm
    rw [hml, hqq] at hlt
    exact lt_irrefl q hlt

/-- C1 witness (spec Scenario B): for a farmer with land 2 and limit 100,
a transaction of exactly 200 kg has ceiling 200 and is not flagged. -/
theorem land_mismatch_strict_flagging_witness :
    qtyOf (MergedRow.mk (TransRow.mk (Cell.int 1) (Cell.int 1) (Cell.int 5) (Cell.int 200) none)
        (some (FarmerRow.mk (Cell.int 1) none (Cell.int 2)))) = some 200 ∧
    maxAllowedOf 100 (MergedRow.mk (TransRow.mk (Cell.int 1) (Cell.int 1) (Cell.int 5)
        (Cell.int 200) none) (some (FarmerRow.mk (Cell.int 1) none (Cell.int 2)))) = some 200 ∧
    (MergedRow.mk (TransRow.mk (Cell.int 1) (Cell.int 1) (Cell.int 5) (Cell.int 200) none)
        (some (FarmerRow.mk (Cell.int 1) none (Cell.int 2)))) ∉
      detect_land_mismatch_with_mapping [FarmerRow.mk (Cell.int 1) none (Cell.int 2)]
        [TransRow.mk (Cell.int 1) (Cell.int 1) (Cell.int 5) (Cell.int 200) none] 100 :=
  ⟨by with_unfolding_all decide, by with_unfolding_all decide,
    land_mismatch_strict_flagging.2.2 _ _ _ _ 200
      (by with_unfolding_all decide) (by with_unfolding_all decide)⟩

/-- C2: the merge is a left join that retains every transaction, and a
flagged row always has a matching farmer (on stringified id) and known
(numeric-coercible) quantity and land size; so unmatched or uncoercible
transactions are never flagged. -/
theorem land_mismatch_left_join_retention :
    (∀ (farmers : List FarmerRow) (trans : List TransRow) (t : TransRow),
       t ∈ trans → ∃ r ∈ merged farmers trans, r.tr = t) ∧
    (∀ (farmers : List FarmerRow) (trans : List TransRow) (limit : ℚ) (r : MergedRow),
       r ∈ detect_land_mismatch_with_mapping farmers trans limit →
         (∃ f ∈ farmers, f.farmerId.toStr = r.tr.farmerId.toStr) ∧
         qtyOf r ≠ none ∧ landOf r ≠ none) := by
  constructor
  · intro farmers trans t ht
    obtain ⟨r, hr, hrt⟩ := exists_mem_mergedOfTrans farmers t
    exact ⟨r, mem_merged_iff.mpr ⟨t, ht, hr⟩, hrt⟩
  · intro farmers trans limit r hr
    unfold detect_land_mismatch_with_mapping at hr
    rw [List.mem_filter] at hr
    obtain ⟨hmem, hsus⟩ := hr
    rw [isSuspicious_iff] at hsus
    obtain ⟨land, q, hland, hq, -⟩ := hsus
    refine ⟨?_, by simp [hq], by simp [hland]⟩
    have hfarm : ∃ f, r.farmer = some f := by
      unfold landOf at hland
      cases hfo : r.farmer with
      | none => rw [hfo] at hland; simp at hland
      | some f => exact ⟨f, rfl⟩
    obtain ⟨f, hfo⟩ := hfarm
    obtain ⟨t, ht, hrm⟩ := mem_merged_iff.mp hmem
    have hft := mergedOfTrans_farmer hrm hfo
    rw [mem_mergedOfTrans_tr hrm]
    exact ⟨f, hft.1, hft.2⟩

/-- C2 witness: a single transaction joined against an empty farmers list
is retained in the merged data. -/
theorem land_mismatch_left_join_retention_witness :
    ∃ r ∈ merged ([] : List FarmerRow)
      [TransRow.mk (Cell.int 1) (Cell.int 9) (Cell.int 5) (Cell.int 500) none],
      r.tr = TransRow.mk (Cell.int 1) (Cell.int 9) (Cell.int 5) (Cell.int 500) none :=
  land_mismatch_left_join_retention.1 _ _ _ (by with_unfolding_all decide)

/-- C9: both join keys are stringified before the merge, so a farmer and a
transaction whose `FarmerID` cells have the same string form are joined,
whatever the cells' native types. -/
theorem join_matches_on_stringified_ids :
    ∀ (farmers : List FarmerRow) (trans : List TransRow) (f : FarmerRow) (t : TransRow),
      f ∈ farmers → t ∈ trans → f.farmerId.toStr = t.farmerId.toStr →
      MergedRow.mk t (some f) ∈ merged farmers trans := by
  intro farmers trans f t hf ht hkey
  exact mem_merged_iff.mpr ⟨t, ht, mk_mem_mergedOfTrans hf hkey⟩

/-- C9 witness: a textual farmer id "7" matches a numeric transaction
farmer id 7 after stringification. -/
theorem join_matches_on_stringified_ids_witness :
    Cell.toStr (Cell.str "7") = Cell.toStr (Cell.int 7) ∧
    MergedRow.mk (TransRow.mk (Cell.int 1) (Cell.int 7) (Cell.int 2) (Cell.int 3) none)
        (some (FarmerRow.mk (Cell.str "7") none (Cell.int 1))) ∈
      merged [FarmerRow.mk (Cell.str "7") none (Cell.int 1)]
        [TransRow.mk (Cell.int 1) (Cell.int 7) (Cell.int 2) (Cell.int 3) none] :=
  ⟨by with_unfolding_all decide,
    join_matches_on_stringified_ids _ _ _ _
      (by with_unfolding_all decide) (by with_unfolding_all decide)
      (by with_unfolding_all decide)⟩

/-- C6 counterexample: with a negative (coerced) land size, raising
`limit_per_acre` from 100 to 200 adds a flag: the transaction below is
flagged at limit 200 but not at limit 100, refuting the claim that the
flagged set at a higher limit is a subset of the one at a lower limit. -/
theorem raising_limit_not_monotone_counterexample :
    (100 : ℚ) < 200 ∧
    (MergedRow.mk (TransRow.mk (Cell.int 10) (Cell.int 1) (Cell.int 5) (Cell.int (-150)) none)
        (some (FarmerRow.mk (Cell.int 1) none (Cell.int (-1))))) ∈
      detect_land_mismatch_with_mapping [FarmerRow.mk (Cell.int 1) none (Cell.int (-1))]
        [TransRow.mk (Cell.int 10) (Cell.int 1) (Cell.int 5) (Cell.int (-150)) none] 200 ∧
    (MergedRow.mk (TransRow.mk (Cell.int 10) (Cell.int 1) (Cell.int 5) (Cell.int (-150)) none)
        (some (FarmerRow.mk (Cell.int 1) none (Cell.int (-1))))) ∉
      detect_land_mismatch_with_mapping [FarmerRow.mk (Cell.int 1) none (Cell.int (-1))]
        [TransRow.mk (Cell.int 10) (Cell.int 1) (Cell.int 5) (Cell.int (-150)) none] 100 :=
  ⟨by norm_num, by with_unfolding_all decide, by with_unfolding_all decide⟩

/-- C6 (amended): when every farmer's coerced land size is nonnegative,
raising `limit_per_acre` never adds a flag: the flagged list at the higher
limit is a sublist of the flagged list at the lower limit. -/
theorem raising_limit_monotone_of_nonneg_land :
    ∀ (farmers : List FarmerRow) (trans : List TransRow) (L L' : ℚ),
      (∀ f ∈ farmers, ∀ q, Cell.toNum f.land = some q → 0 ≤ q) →
      L < L' →
      (detect_land_mismatch_with_mapping farmers trans L').Sublist
        (detect_land_mismatch_with_mapping farmers trans L) := by
  intro farmers trans L L' hnn hLL
  unfold detect_land_mismatch_with_mapping
  apply filter_sublist_filter_of_imp
  intro r hr hsus
  rw [isSuspicious_iff] at hsus ⊢
  obtain ⟨land, q, hl, hq, hlt⟩ := hsus
  refine ⟨land, q, hl, hq, ?_⟩
  have hfarm : ∃ f, r.farmer = some f ∧ Cell.toNum f.land = some land := by
    unfold landOf at hl
    cases hfo : r.farmer with
    | none => rw [hfo] at hl; simp at hl
    | some f =>
      rw [hfo] at hl
      simp only [Option.some_bind] at hl
      exact ⟨f, rfl, hl⟩
  obtain ⟨f, hfo, hfl⟩ := hfarm
  obtain ⟨t, ht, hrm⟩ := mem_merged_iff.mp hr
  have hmem := (mergedOfTrans_farmer hrm hfo).1
  have h0 : 0 ≤ land := hnn f hmem land hfl
  calc land * L ≤ land * L' := mul_le_mul_of_nonneg_left (le_of_lt hLL) h0
    _ < q := hlt

/-! ### Helper lemmas about column resolution -/

theorem findDefault_mem {cands : Option (List String)} {cols : List String} {d : String}
    (h : findDefault cands cols = some d) : d ∈ cols := by
  unfold findDefault at h
  cases cands with
  | none => simp at h
  | some cs =>
    have h2 : List.find? (fun c => decide (c ∈ cols)) cs = some d := h
    have h3 := List.find?_some h2
    exact of_decide_eq_true h3

theorem ask_column_ok_mem {cols : List String} {cands : Option (List String)}
    {inputs : List String} {c : String}
    (h : ask_column cols cands inputs = Except.ok c) : c ∈ cols := by
  unfold ask_column at h
  split_ifs at h with h1 h2
  · simp only [Except.ok.injEq] at h
    subst h
    exact h1
  · simp only [Except.ok.injEq] at h
    subst h
    exact h2

theorem auto_find_column_skip (cols : List String) :
    ∀ (ks1 tl : List String),
      (∀ k ∈ ks1, ∀ col ∈ cols, kwMatches k col = false) →
      auto_find_column cols (ks1 ++ tl) = auto_find_column cols tl
  | [], _, _ => rfl
  | k :: rest, tl, h => by
    have hnone : cols.find? (fun x => kwMatches k x) = none :=
      List.find?_eq_none.mpr (fun x hx => by simp [h k (List.mem_cons_self k rest) x hx])
    have step : auto_find_column cols ((k :: rest) ++ tl) = auto_find_column cols (rest ++ tl) := by
      show (match cols.find? (fun c => kwMatches k c) with
            | some c => some c
            | none => auto_find_column cols (rest ++ tl)) = auto_find_column cols (rest ++ tl)
      rw [hnone]
    rw [step]
    exact auto_find_column_skip cols rest tl
      (fun k2 hk2 col hcol => h k2 (List.mem_cons_of_mem _ hk2) col hcol)

theorem find?_first_match (cs1 cs2 : List String) (kw c : String)
    (h1 : ∀ col ∈ cs1, kwMatches kw col = false) (hc : kwMatches kw c = true) :
    (cs1 ++ c :: cs2).find? (fun x => kwMatches kw x) = some c := by
  induction cs1 with
  | nil => simpa using List.find?_cons_of_pos cs2 hc
  | cons a as ih =>
    rw [List.cons_append,
      List.find?_cons_of_neg _ (by simp [h1 a (List.mem_cons_self a as)])]
    exact ih (fun col hcol => h1 col (List.mem_cons_of_mem _ hcol))

/-! ### Claim theorems: column resolution -/

/-- C7: a successful resolution (required or optional) always yields one of
the dataset's columns; an empty first response selects the detected default
when one exists; when the first and the (single) retry selection are both
invalid, resolution ends in an error, which is propagated for required
roles and recorded as an unset role (`none`) for optional ones. -/
theorem ask_column_resolution :
    (∀ (cols : List String) (cands : Option (List String)) (inputs : List String) (c : String),
      ask_column cols cands inputs = Except.ok c → c ∈ cols) ∧
    (∀ (cols : List String) (cands : Option (List String)) (inputs : List String) (c : String),
      ask_column_optional cols cands inputs = some c → c ∈ cols) ∧
    (∀ (cols : List String) (cands : Option (List String)) (inputs : List String) (d : String),
      findDefault cands cols = some d → (inputs.getD 0 "").trim = "" →
      ask_column cols cands inputs = Except.ok d) ∧
    (∀ (cols : List String) (cands : Option (List String)) (inputs : List String),
      effectiveSel (findDefault cands cols) (inputs.getD 0 "") ∉ cols →
      effectiveSel (findDefault cands cols) (inputs.getD 1 "") ∉ cols →
      ask_column cols cands inputs =
        Except.error (effectiveSel (findDefault cands cols) (inputs.getD 1 ""))) ∧
    (∀ (cols : List String) (cands : Option (List String)) (inputs : List String) (e : String),
      ask_column cols cands inputs = Except.error e →
      ask_column_optional cols cands inputs = none) := by
  refine ⟨fun cols cands inputs c h => ask_column_ok_mem h, ?_, ?_, ?_, ?_⟩
  · intro cols cands inputs c h
    unfold ask_column_optional at h
    cases hask : ask_column cols cands inputs with
    | ok c2 =>
      rw [hask] at h
      simp only [Option.some.injEq] at h
      subst h
      exact ask_column_ok_mem hask
    | error e =>
      rw [hask] at h
      simp at h
  · intro cols cands inputs d hdef htrim
    have hd : d ∈ cols := findDefault_mem hdef
    have hsel : effectiveSel (findDefault cands cols) (inputs.getD 0 "") = d := by
      rw [hdef]
      unfold effectiveSel
      rw [htrim]
      simp
    unfold ask_column
    rw [hsel, if_pos hd]
  · intro cols cands inputs h1 h2
    unfold ask_column
    rw [if_neg h1, if_neg h2]
  · intro cols cands inputs e he
    unfold ask_column_optional
    rw [he]

/-- C7 witness: with columns `["Qty", "Id"]` and candidates
`["Quantity", "Qty"]`, the detected default is `"Qty"` and an empty
operator response resolves to it. -/
theorem ask_column_resolution_witness :
    findDefault (some ["Quantity", "Qty"]) ["Qty", "Id"] = some "Qty" ∧
    ask_column ["Qty", "Id"] (some ["Quantity", "Qty"]) [""] = Except.ok "Qty" :=
  ⟨by decide, ask_column_resolution.2.2.1 ["Qty", "Id"] (some ["Quantity", "Qty"]) [""]
    "Qty" (by decide) (by with_unfolding_all decide)⟩

/-- C8: auto-detection tries keywords in priority order: when every keyword
of a first block matches no column and `kw` matches some column, the result
is the first column (in original column order) matching `kw`, regardless of
any later keywords; and it is `none` when no keyword matches any column. -/
theorem auto_find_column_priority :
    (∀ (ks1 ks2 cs1 cs2 : List String) (kw c : String),
      (∀ k ∈ ks1, ∀ col ∈ cs1 ++ c :: cs2, kwMatches k col = false) →
      (∀ col ∈ cs1, kwMatches kw col = false) →
      kwMatches kw c = true →
      auto_find_column (cs1 ++ c :: cs2) (ks1 ++ kw :: ks2) = some c) ∧
    (∀ (cols ks : List String),
      (∀ k ∈ ks, ∀ col ∈ cols, kwMatches k col = false) →
      auto_find_column cols ks = none) := by
  constructor
  · intro ks1 ks2 cs1 cs2 kw c h1 h2 hc
    rw [auto_find_column_skip _ ks1 _ h1]
    unfold auto_find_column
    rw [find?_first_match cs1 cs2 kw c h2 hc]
  · intro cols ks h
    have h2 := auto_find_column_skip cols ks [] h
    rw [List.append_nil] at h2
    exact h2

/-- C8 witness: with columns `["alpha", "beta"]` and keywords
`["bet", "alp"]`, the match for the higher-priority keyword "bet" in the
later column "beta" beats the match for "alp" in the earlier column. -/
theorem auto_find_column_priority_witness :
    kwMatches "bet" "beta" = true ∧
    auto_find_column ["alpha", "beta"] ["bet", "alp"] = some "beta" :=
  ⟨by with_unfolding_all decide,
    auto_find_column_priority.1 [] ["alp"] ["alpha"] [] "bet" "beta"
      (by simp) (by with_unfolding_all decide) (by with_unfolding_all decide)⟩

/-- C6 (amended) witness (spec Scenario A data): with nonnegative land
sizes, the flagged list at limit 200 is a sublist of the one at 100. -/
theorem raising_limit_monotone_of_nonneg_land_witness :
    (100 : ℚ) < 200 ∧
    (detect_land_mismatch_with_mapping [FarmerRow.mk (Cell.int 1) none (Cell.int 2)]
        [TransRow.mk (Cell.int 1) (Cell.int 1) (Cell.int 5) (Cell.int 250) none] 200).Sublist
      (detect_land_mismatch_with_mapping [FarmerRow.mk (Cell.int 1) none (Cell.int 2)]
        [TransRow.mk (Cell.int 1) (Cell.int 1) (Cell.int 5) (Cell.int 250) none] 100) :=
  ⟨by norm_num,
    raising_limit_monotone_of_nonneg_land _ _ 100 200
      (by
        intro f hf q hq
        rw [List.mem_singleton] at hf
        subst hf
        simp only [Cell.toNum, Option.some.injEq] at hq
        rw [← hq]
        norm_num)
      (by norm_num)⟩

/-! ### Helper lemmas about the dealer pipeline -/

theorem mem_firstOccur : ∀ (l : List Cell) (a : Cell), a ∈ firstOccur l ↔ a ∈ l
  | [], a => by rw [firstOccur]
  | c :: rest, a => by
    rw [firstOccur]
    by_cases hac : a = c
    · simp [hac]
    · simp only [List.mem_cons, hac, false_or,
        mem_firstOccur (rest.filter (fun d => decide (d ≠ c))) a, List.mem_filter]
      simp [hac]
termination_by l _ => l.length
decreasing_by
  exact Nat.lt_succ_of_le (List.length_filter_le _ _)

theorem mem_dealersIn {trans : List TransRow} {d : Cell} :
    d ∈ dealersIn trans ↔ d ≠ Cell.null ∧ ∃ t ∈ trans, t.dealerId = d := by
  unfold dealersIn
  rw [mem_firstOccur]
  simp only [List.mem_filter, List.mem_map, decide_eq_true_eq]
  constructor
  · rintro ⟨⟨t, ht, rfl⟩, hnn⟩
    exact ⟨hnn, t, ht, rfl⟩
  · rintro ⟨hnn, t, ht, rfl⟩
    exact ⟨⟨t, ht, rfl⟩, hnn⟩

theorem exists_ge_all (l : List ℚ) (h : l ≠ []) : ∃ x ∈ l, ∀ y ∈ l, y ≤ x := by
  induction l with
  | nil => exact absurd rfl h
  | cons a t ih =>
    by_cases ht : t = []
    · subst ht
      refine ⟨a, List.mem_singleton.mpr rfl, ?_⟩
      intro y hy
      rw [List.mem_singleton] at hy
      exact le_of_eq hy
    · obtain ⟨x, hx, hall⟩ := ih ht
      rcases le_total a x with hax | hax
      · refine ⟨x, List.mem_cons_of_mem _ hx, ?_⟩
        intro y hy
        rcases List.mem_cons.mp hy with rfl | hy2
        · exact hax
        · exact hall y hy2
      · refine ⟨a, List.mem_cons_self a t, ?_⟩
        intro y hy
        rcases List.mem_cons.mp hy with rfl | hy2
        · exact le_refl y
        · exact le_trans (hall y hy2) hax

theorem quantile_le_of_bounds (xs : List ℚ) (p : ℚ) (hxs : xs ≠ []) (M : ℚ)
    (hM : ∀ y ∈ xs, y ≤ M) (hp0 : 0 ≤ p) (hp1 : p ≤ 1) : quantile xs p ≤ M := by
  have hlen : (sortedAsc xs).length = xs.length := by
    unfold sortedAsc
    simp
  have hn : 0 < xs.length := List.length_pos.mpr hxs
  have hfloor0 : 0 ≤ ⌊((xs.length - 1 : ℕ) : ℚ) * p⌋ :=
    Int.floor_nonneg.mpr (mul_nonneg (Nat.cast_nonneg _) hp0)
  have hfloor1 : ⌊((xs.length - 1 : ℕ) : ℚ) * p⌋ ≤ ((xs.length - 1 : ℕ) : ℤ) := by
    have h1 : ((xs.length - 1 : ℕ) : ℚ) * p ≤ ((xs.length - 1 : ℕ) : ℚ) := by
      nlinarith [Nat.cast_nonneg (α := ℚ) (xs.length - 1)]
    calc ⌊((xs.length - 1 : ℕ) : ℚ) * p⌋ ≤ ⌊((xs.length - 1 : ℕ) : ℚ)⌋ := Int.floor_le_floor h1
      _ = ((xs.length - 1 : ℕ) : ℤ) := Int.floor_natCast _
  have hlo_le : qIndex xs.length p ≤ xs.length - 1 := by
    unfold qIndex
    exact Int.toNat_le.mpr hfloor1
  have hlo_lt : qIndex xs.length p < (sortedAsc xs).length := by
    rw [hlen]
    omega
  have hmem_vlo : (sortedAsc xs).getD (qIndex xs.length p) 0 ∈ xs := by
    have h2 : (sortedAsc xs).getD (qIndex xs.length p) 0 ∈ sortedAsc xs := by
      rw [List.getD_eq_getElem _ _ hlo_lt]
      exact List.getElem_mem hlo_lt
    unfold sortedAsc at h2
    exact (List.mergeSort_perm xs _).mem_iff.mp h2
  have hvloM : (sortedAsc xs).getD (qIndex xs.length p) 0 ≤ M := hM _ hmem_vlo
  have hvhiM : (sortedAsc xs).getD (qIndex xs.length p + 1)
      ((sortedAsc xs).getD (qIndex xs.length p) 0) ≤ M := by
    by_cases hhi : qIndex xs.length p + 1 < (sortedAsc xs).length
    · have h2 : (sortedAsc xs).getD (qIndex xs.length p + 1)
          ((sortedAsc xs).getD (qIndex xs.length p) 0) ∈ sortedAsc xs := by
        rw [List.getD_eq_getElem _ _ hhi]
        exact List.getElem_mem hhi
      apply hM
      unfold sortedAsc at h2
      exact (List.mergeSort_perm xs _).mem_iff.mp h2
    · rw [List.getD_eq_default _ _ (le_of_not_lt hhi)]
      exact hvloM
  have hZ : ((qIndex xs.length p : ℕ) : ℤ) = ⌊((xs.length - 1 : ℕ) : ℚ) * p⌋ := by
    unfold qIndex
    exact Int.toNat_of_nonneg hfloor0
  have hcast : ((qIndex xs.length p : ℕ) : ℚ) = ((⌊((xs.length - 1 : ℕ) : ℚ) * p⌋ : ℤ) : ℚ) := by
    rw [← hZ]
    push_cast
    ring
  have hfrac0 : 0 ≤ qFrac xs.length p := by
    unfold qFrac
    rw [hcast]
    have := Int.floor_le (((xs.length - 1 : ℕ) : ℚ) * p)
    linarith
  have hfrac1 : qFrac xs.length p ≤ 1 := by
    unfold qFrac
    rw [hcast]
    have := Int.lt_floor_add_one (((xs.length - 1 : ℕ) : ℚ) * p)
    linarith
  unfold quantile
  rw [if_neg hxs]
  nlinarith [hfrac0, hfrac1, hvloM, hvhiM]

/-! ### Claim theorems: the dealer outlier detector -/

/-- C3: every dealer appearing in the transactions has a summary row whose
transaction count is the number of its rows (non-numeric quantities
included), whose total is the sum of its coerced quantities (unknown
quantities counting 0), and whose average is total divided by count. -/
theorem dealer_summary_metrics :
    ∀ (trans : List TransRow) (d : Cell),
      d ≠ Cell.null →
      (∃ t ∈ trans, t.dealerId = d) →
      ∃ s ∈ dealerSummary trans,
        s.dealerId = d ∧
        s.txCount = trans.countP (fun t => decide (t.dealerId = d)) ∧
        s.totalQty = ((trans.filter (fun t => decide (t.dealerId = d))).map coercedQty).sum ∧
        s.avg = s.totalQty / (s.txCount : ℚ) := by
  intro trans d hnn hex
  have hd : d ∈ dealersIn trans := mem_dealersIn.mpr ⟨hnn, hex⟩
  refine ⟨summaryFor trans d, List.mem_map_of_mem _ hd, rfl, ?_, rfl, rfl⟩
  show (trans.filter (fun t => decide (t.dealerId = d))).length = _
  rw [List.countP_eq_length_filter]

/-- C3 witness: dealer 7 has two rows, one with a non-numeric quantity;
its count is 2, its total 50, its average 25. -/
theorem dealer_summary_metrics_witness :
    ∃ s ∈ dealerSummary
        [TransRow.mk (Cell.int 1) (Cell.int 1) (Cell.int 7) (Cell.int 50) none,
          TransRow.mk (Cell.int 2) (Cell.int 2) (Cell.int 7) (Cell.str "xx") none],
      s.dealerId = Cell.int 7 ∧
      s.txCount = List.countP (fun t => decide (t.dealerId = Cell.int 7))
        [TransRow.mk (Cell.int 1) (Cell.int 1) (Cell.int 7) (Cell.int 50) none,
          TransRow.mk (Cell.int 2) (Cell.int 2) (Cell.int 7) (Cell.str "xx") none] ∧
      s.totalQty = (((List.filter (fun t => decide (t.dealerId = Cell.int 7))
        [TransRow.mk (Cell.int 1) (Cell.int 1) (Cell.int 7) (Cell.int 50) none,
          TransRow.mk (Cell.int 2) (Cell.int 2) (Cell.int 7) (Cell.str "xx") none]).map
            coercedQty).sum) ∧
      s.avg = s.totalQty / (s.txCount : ℚ) :=
  dealer_summary_metrics _ (Cell.int 7) (by decide) (by decide)

/-- C4: the dealer threshold is the `percentile`-quantile (linear
interpolation between order statistics) of the per-dealer averages, raised
to `min_average` when that floor is supplied; with zero dealers the
quantile part defaults to 0 (the threshold itself, with no floor) and
nothing is flagged. -/
theorem dealer_threshold_spec :
    avg_tx_percentile_default = 95 / 100 ∧
    (∀ (trans : List TransRow) (p m : ℚ),
      dealerSummary trans ≠ [] →
      avgThreshold trans p none = quantile ((dealerSummary trans).map (fun s => s.avg)) p ∧
      avgThreshold trans p (some m) =
        max (quantile ((dealerSummary trans).map (fun s => s.avg)) p) m) ∧
    (∀ (trans : List TransRow) (p : ℚ) (mo : Option ℚ),
      dealerSummary trans = [] →
      avgThreshold trans p none = 0 ∧ (detect_dealer_by_avg_tx trans p mo).1 = []) := by
  refine ⟨rfl, ?_, ?_⟩
  · intro trans p m hne
    constructor
    · show quantileBase trans p = _
      unfold quantileBase
      rw [if_neg hne]
    · show max (quantileBase trans p) m = _
      unfold quantileBase
      rw [if_neg hne]
  · intro trans p mo hempty
    constructor
    · show quantileBase trans p = 0
      unfold quantileBase
      rw [if_pos hempty]
    · unfold detect_dealer_by_avg_tx
      rw [hempty]
      simp

/-- C4 witness: a single dealer with average 50; the threshold at the
default percentile is the quantile of `[50]`. -/
theorem dealer_threshold_spec_witness :
    dealerSummary [TransRow.mk (Cell.int 1) (Cell.int 1) (Cell.int 7) (Cell.int 50) none] ≠ [] ∧
    avgThreshold [TransRow.mk (Cell.int 1) (Cell.int 1) (Cell.int 7) (Cell.int 50) none]
        (95 / 100) none =
      quantile ((dealerSummary
        [TransRow.mk (Cell.int 1) (Cell.int 1) (Cell.int 7) (Cell.int 50) none]).map
          (fun s => s.avg)) (95 / 100) :=
  ⟨by with_unfolding_all decide,
    (dealer_threshold_spec.2.1 _ (95 / 100) 0 (by with_unfolding_all decide)).1⟩

/-- C5 counterexample: two dealers with the same average (50) are both
flagged, and the source's documented sort contract — `sort_values`
descending with the default, unstable, quicksort — admits the output that
lists them in the opposite of the grouping order. The claimed stable
tie-breaking is therefore not a guarantee of the program: an admissible
flagged sequence differs from the grouping-ordered one. -/
theorem dealer_tie_order_counterexample :
    (summaryFor [TransRow.mk (Cell.int 1) (Cell.int 1) (Cell.int 1) (Cell.int 50) none,
        TransRow.mk (Cell.int 2) (Cell.int 2) (Cell.int 2) (Cell.int 50) none]
      (Cell.int 1)).avg =
      (summaryFor [TransRow.mk (Cell.int 1) (Cell.int 1) (Cell.int 1) (Cell.int 50) none,
          TransRow.mk (Cell.int 2) (Cell.int 2) (Cell.int 2) (Cell.int 50) none]
        (Cell.int 2)).avg ∧
    sortValuesDesc
      ((dealerSummary [TransRow.mk (Cell.int 1) (Cell.int 1) (Cell.int 1) (Cell.int 50) none,
          TransRow.mk (Cell.int 2) (Cell.int 2) (Cell.int 2) (Cell.int 50) none]).filter
        (fun s => decide (avgThreshold
          [TransRow.mk (Cell.int 1) (Cell.int 1) (Cell.int 1) (Cell.int 50) none,
            TransRow.mk (Cell.int 2) (Cell.int 2) (Cell.int 2) (Cell.int 50) none]
          (95 / 100) none ≤ s.avg)))
      [summaryFor [TransRow.mk (Cell.int 1) (Cell.int 1) (Cell.int 1) (Cell.int 50) none,
          TransRow.mk (Cell.int 2) (Cell.int 2) (Cell.int 2) (Cell.int 50) none] (Cell.int 2),
        summaryFor [TransRow.mk (Cell.int 1) (Cell.int 1) (Cell.int 1) (Cell.int 50) none,
          TransRow.mk (Cell.int 2) (Cell.int 2) (Cell.int 2) (Cell.int 50) none] (Cell.int 1)] ∧
    [summaryFor [TransRow.mk (Cell.int 1) (Cell.int 1) (Cell.int 1) (Cell.int 50) none,
        TransRow.mk (Cell.int 2) (Cell.int 2) (Cell.int 2) (Cell.int 50) none] (Cell.int 2),
      summaryFor [TransRow.mk (Cell.int 1) (Cell.int 1) (Cell.int 1) (Cell.int 50) none,
        TransRow.mk (Cell.int 2) (Cell.int 2) (Cell.int 2) (Cell.int 50) none] (Cell.int 1)] ≠
      (dealerSummary [TransRow.mk (Cell.int 1) (Cell.int 1) (Cell.int 1) (Cell.int 50) none,
          TransRow.mk (Cell.int 2) (Cell.int 2) (Cell.int 2) (Cell.int 50) none]).filter
        (fun s => decide (avgThreshold
          [TransRow.mk (Cell.int 1) (Cell.int 1) (Cell.int 1) (Cell.int 50) none,
            TransRow.mk (Cell.int 2) (Cell.int 2) (Cell.int 2) (Cell.int 50) none]
          (95 / 100) none ≤ s.avg)) := by
  refine ⟨by with_unfolding_all decide, ⟨?_, ?_⟩, by with_unfolding_all decide⟩
  · with_unfolding_all decide
  · with_unfolding_all decide

/-- C5 (amended): the flagged sequence is an admissible descending
`sort_values` result of exactly the summary rows whose average is at least
the threshold (inclusive comparison), and every admissible output — the
modelled one included — contains exactly those rows, a subset of the full
summary, in descending order of average. The order among equal averages is
not part of the program's contract. -/
theorem dealer_flagged_membership_sorted :
    ∀ (trans : List TransRow) (p : ℚ) (mo : Option ℚ),
      sortValuesDesc
        ((dealerSummary trans).filter (fun s => decide (avgThreshold trans p mo ≤ s.avg)))
        (detect_dealer_by_avg_tx trans p mo).1 ∧
      (∀ out,
        sortValuesDesc
          ((dealerSummary trans).filter (fun s => decide (avgThreshold trans p mo ≤ s.avg)))
          out →
        (∀ s, s ∈ out ↔ s ∈ dealerSummary trans ∧ avgThreshold trans p mo ≤ s.avg) ∧
        List.Pairwise (fun a b => b.avg ≤ a.avg) out) := by
  intro trans p mo
  have htr : ∀ (a b c : DealerSummary), avgDesc a b → avgDesc b c → avgDesc a c := by
    intro a b c hab hbc
    exact decide_eq_true (le_trans (of_decide_eq_true hbc) (of_decide_eq_true hab))
  have hto : ∀ (a b : DealerSummary), avgDesc a b || avgDesc b a := by
    intro a b
    rw [Bool.or_eq_true]
    rcases le_total b.avg a.avg with h | h
    · exact Or.inl (decide_eq_true h)
    · exact Or.inr (decide_eq_true h)
  constructor
  · constructor
    · exact List.mergeSort_perm _ _
    · have hs := List.sorted_mergeSort htr hto
        ((dealerSummary trans).filter (fun s => decide (avgThreshold trans p mo ≤ s.avg)))
      exact hs.imp (fun hab => of_decide_eq_true hab)
  · intro out hout
    refine ⟨?_, hout.2⟩
    intro s
    rw [hout.1.mem_iff, List.mem_filter, decide_eq_true_eq]

/-- C5 (amended) witness: at a concrete dataset the modelled flagged
sequence is an admissible `sort_values` output, and its single summary row
satisfies the membership equivalence. -/
theorem dealer_flagged_membership_sorted_witness :
    sortValuesDesc
      ((dealerSummary [TransRow.mk (Cell.int 1) (Cell.int 1) (Cell.int 7)
          (Cell.int 50) none]).filter
        (fun s => decide (avgThreshold
          [TransRow.mk (Cell.int 1) (Cell.int 1) (Cell.int 7) (Cell.int 50) none]
          (95 / 100) none ≤ s.avg)))
      (detect_dealer_by_avg_tx
        [TransRow.mk (Cell.int 1) (Cell.int 1) (Cell.int 7) (Cell.int 50) none]
        (95 / 100) none).1 ∧
    (summaryFor [TransRow.mk (Cell.int 1) (Cell.int 1) (Cell.int 7) (Cell.int 50) none]
        (Cell.int 7) ∈
      (detect_dealer_by_avg_tx
        [TransRow.mk (Cell.int 1) (Cell.int 1) (Cell.int 7) (Cell.int 50) none]
        (95 / 100) none).1 ↔
      summaryFor [TransRow.mk (Cell.int 1) (Cell.int 1) (Cell.int 7) (Cell.int 50) none]
          (Cell.int 7) ∈
        dealerSummary [TransRow.mk (Cell.int 1) (Cell.int 1) (Cell.int 7) (Cell.int 50) none] ∧
      avgThreshold [TransRow.mk (Cell.int 1) (Cell.int 1) (Cell.int 7) (Cell.int 50) none]
          (95 / 100) none ≤
        (summaryFor [TransRow.mk (Cell.int 1) (Cell.int 1) (Cell.int 7) (Cell.int 50) none]
          (Cell.int 7)).avg) :=
  ⟨(dealer_flagged_membership_sorted
      [TransRow.mk (Cell.int 1) (Cell.int 1) (Cell.int 7) (Cell.int 50) none]
      (95 / 100) none).1,
    ((dealer_flagged_membership_sorted
        [TransRow.mk (Cell.int 1) (Cell.int 1) (Cell.int 7) (Cell.int 50) none]
        (95 / 100) none).2 _
      (dealer_flagged_membership_sorted
        [TransRow.mk (Cell.int 1) (Cell.int 1) (Cell.int 7) (Cell.int 50) none]
        (95 / 100) none).1).1 _⟩

/-- C10 counterexample: a non-empty transactions list whose single row has
a missing DealerID yields an empty flagged sequence (with the default
percentile and no floor), refuting the claim for arbitrary non-empty
data. -/
theorem nonempty_flagged_counterexample :
    [TransRow.mk (Cell.int 1) (Cell.int 1) Cell.null (Cell.int 50) none] ≠
      ([] : List TransRow) ∧
    (detect_dealer_by_avg_tx
        [TransRow.mk (Cell.int 1) (Cell.int 1) Cell.null (Cell.int 50) none]
        (95 / 100) none).1 = [] :=
  ⟨List.cons_ne_nil _ _, by with_unfolding_all decide⟩

/-- C10 (amended): if some transaction has a present (non-null) DealerID
and no floor is supplied, the flagged sequence is non-empty for any
percentile in [0, 1]: the quantile of the averages never exceeds their
maximum, so the maximal-average dealer always passes the inclusive
comparison. -/
theorem nonempty_flagged_of_known_dealer :
    ∀ (trans : List TransRow) (p : ℚ),
      0 ≤ p → p ≤ 1 →
      (∃ t ∈ trans, t.dealerId ≠ Cell.null) →
      (detect_dealer_by_avg_tx trans p none).1 ≠ [] := by
  intro trans p hp0 hp1 hex
  obtain ⟨t, ht, hnn⟩ := hex
  have hd : t.dealerId ∈ dealersIn trans := mem_dealersIn.mpr ⟨hnn, t, ht, rfl⟩
  have hsum_ne : dealerSummary trans ≠ [] := by
    intro hcon
    have hdin : dealersIn trans = [] := by
      unfold dealerSummary at hcon
      simpa using hcon
    rw [hdin] at hd
    exact List.not_mem_nil _ hd
  have havgs_ne : (dealerSummary trans).map (fun s => s.avg) ≠ [] := by
    intro hcon
    apply hsum_ne
    simpa using hcon
  obtain ⟨M, hMmem, hMall⟩ := exists_ge_all _ havgs_ne
  have hq : quantile ((dealerSummary trans).map (fun s => s.avg)) p ≤ M :=
    quantile_le_of_bounds _ p havgs_ne M hMall hp0 hp1
  have hthr : avgThreshold trans p none =
      quantile ((dealerSummary trans).map (fun s => s.avg)) p := by
    show quantileBase trans p = _
    unfold quantileBase
    rw [if_neg hsum_ne]
  obtain ⟨s0, hs0mem, hs0avg⟩ := List.mem_map.mp hMmem
  have hs0flag : s0 ∈ (dealerSummary trans).filter
      (fun s => decide (avgThreshold trans p none ≤ s.avg)) := by
    apply List.mem_filter.mpr
    refine ⟨hs0mem, decide_eq_true ?_⟩
    rw [hthr, hs0avg]
    exact hq
  intro hcon
  have hmem : s0 ∈ (detect_dealer_by_avg_tx trans p none).1 := by
    show s0 ∈ List.mergeSort _ avgDesc
    exact List.mem_mergeSort.mpr hs0flag
  rw [hcon] at hmem
  exact List.not_mem_nil s0 hmem

/-- C10 (amended) witness: one transaction with a present dealer id gives a
non-empty flagged sequence at the default percentile. -/
theorem nonempty_flagged_of_known_dealer_witness :
    (0 : ℚ) ≤ 95 / 100 ∧ (95 : ℚ) / 100 ≤ 1 ∧
    (detect_dealer_by_avg_tx
        [TransRow.mk (Cell.int 1) (Cell.int 1) (Cell.int 7) (Cell.int 50) none]
        (95 / 100) none).1 ≠ [] :=
  ⟨by norm_num, by norm_num,
    nonempty_flagged_of_known_dealer _ _ (by norm_num) (by norm_num) (by decide)⟩

end FraudDetection
